import Mathlib

/-!
Verification development for the Function component
(src/internal/components/src/components/function.ts).

File contents are modelled as byte lists (Node Buffers). The sha256 digest
of calculateHash is modelled by the byte stream fed to it through
hash.update: the digest is a pure function of that stream, and (under
collision resistance) two digests are equal exactly when the streams are,
so every statement about hash equality is phrased on the stream. Relative
paths produced by the glob walk are modelled as their lists of path
components.
-/

namespace SstFunction

/-- Bytes of a file, as read by fs.promises.readFile. -/
abbrev Bytes := List Nat

/-- Relative path of a file under the bundle root, as its list of slash
separated components. -/
abbrev RelPath := List String

/-- Entry of the bundle directory as the glob walk encounters it: a regular
file, or a symlink to a file whose bytes are targetContent. fs.readFile
always resolves a symlink to its target, so the content read through a
symlink is the target content. -/
inductive FsEntry where
  | regular (content : Bytes)
  | symlinkTo (targetContent : Bytes)
deriving DecidableEq, Repr

/-- Content obtained by fs.promises.readFile for the entry (symlinks are
read through to the target bytes). -/
def FsEntry.readThrough : FsEntry → Bytes
  | .regular c => c
  | .symlinkTo t => t

/-- Bundle directory presented in glob traversal order: the list of
(relative path, entry) pairs exactly as globSync yields the matches.
globSync is not asked to sort, so this order is the filesystem order. -/
abbrev Bundle := List (RelPath × FsEntry)

/-- Options record passed to globSync by calculateHash in function.ts. -/
structure GlobOptions where
  ignore : String
  dot : Bool
  nodir : Bool
  follow : Bool
deriving DecidableEq, Repr

/-- Options used by calculateHash: ignore node_modules, include dotfiles,
files only, follow symlinked directories. Note follow is a fixed true;
FunctionArgs offers no field that changes it. -/
def calculateHashGlobOptions : GlobOptions :=
  { ignore := "**/node_modules/**", dot := true, nodir := true, follow := true }

/-- Whether the ignore pattern of calculateHashGlobOptions discards a
relative path: the pattern matches every file lying inside some
node_modules directory component. -/
def inNodeModules (p : RelPath) : Bool :=
  p.dropLast.contains "node_modules"

/-- Matches returned by the globSync call of calculateHash, in traversal
order: every file of the bundle not under node_modules. -/
def globFiles (b : Bundle) : List (RelPath × FsEntry) :=
  b.filter (fun e => !inNodeModules e.1)

/-- Byte stream fed to the sha256 digest by calculateHash: for each match
in glob traversal order, hash.update receives the bytes of the file read
through symlinks. The relative path itself is never fed to the digest,
and the match list is not sorted. -/
def calculateHashInput (b : Bundle) : Bytes :=
  ((globFiles b).map (fun e => e.2.readThrough)).flatten

theorem globFiles_append (b₁ b₂ : Bundle) :
    globFiles (b₁ ++ b₂) = globFiles b₁ ++ globFiles b₂ := by
  simp [globFiles]

theorem calculateHashInput_append (b₁ b₂ : Bundle) :
    calculateHashInput (b₁ ++ b₂) =
      calculateHashInput b₁ ++ calculateHashInput b₂ := by
  simp [calculateHashInput, globFiles_append]

/-- C1: the claim says the digest input is the sorted list of
(relative path, content) pairs, hence traversal-order independent and
rename sensitive. The code feeds only contents, unsorted: the bundle
with a.js ↦ "1" (byte 49) and b.js ↦ "2" (byte 50) hashes differently
under the two traversal orders, and renaming the single file a.js ↦ "x"
(byte 120) to b.js leaves the digest input unchanged. -/
theorem calculateHash_order_and_path_dependent :
    calculateHashInput [(["b.js"], .regular [50]), (["a.js"], .regular [49])] ≠
      calculateHashInput [(["a.js"], .regular [49]), (["b.js"], .regular [50])] ∧
    calculateHashInput [(["a.js"], .regular [120])] =
      calculateHashInput [(["b.js"], .regular [120])] := by
  constructor
  · decide
  · rfl

/-- C5 counterexample: there is no followSymlinks branch — the glob options
are fixed with follow = true, and the digest input always reads a symlink
through to its target, so changing the target content from byte 49 to
byte 50 changes the hash even though no followSymlinks field was (or could
be) set. -/
theorem calculateHash_symlink_never_ignored :
    calculateHashGlobOptions.follow = true ∧
    calculateHashInput [(["link.js"], .symlinkTo [49])] ≠
      calculateHashInput [(["link.js"], .symlinkTo [50])] := by
  constructor
  · rfl
  · decide

/-- C5 amended: symlinks are always followed to the real target content
(follow is hard-coded true and readFile resolves links), so for a
non-ignored symlink anywhere in the bundle the digest input changes
exactly when the target content changes. -/
theorem calculateHash_follows_symlinks (pre post : Bundle) (p : RelPath)
    (t t' : Bytes) (hp : inNodeModules p = false) :
    (calculateHashInput (pre ++ (p, .symlinkTo t) :: post) =
       calculateHashInput (pre ++ (p, .symlinkTo t') :: post)) ↔ t = t' := by
  have hmid : ∀ u : Bytes,
      calculateHashInput ((p, FsEntry.symlinkTo u) :: post) =
        u ++ calculateHashInput post := by
    intro u
    simp [calculateHashInput, globFiles, hp, FsEntry.readThrough]
  constructor
  · intro h
    rw [calculateHashInput_append, calculateHashInput_append, hmid, hmid] at h
    exact List.append_cancel_right (List.append_cancel_left h)
  · intro h
    rw [h]

/-- C5 witness: instantiating the amended theorem at a one-entry bundle. -/
theorem calculateHash_follows_symlinks_witness :
    inNodeModules ["link.js"] = false ∧
    ((calculateHashInput [(["link.js"], .symlinkTo [49])] =
        calculateHashInput [(["link.js"], .symlinkTo [50])]) ↔ ([49] : Bytes) = [50]) :=
  ⟨by decide, calculateHash_follows_symlinks [] [] ["link.js"] [49] [50] (by decide)⟩

/-- Steps of the deploy pipeline launched by the Function constructor, in
source order: calculateHash, wrapHandler, createRole, zipBundleFolder,
createBucketObject, createFunction, updateFunctionCode. -/
inductive PipeStep where
  | hash | wrap | role | zip | bucketObject | createFn | updateCode
deriving DecidableEq, Repr

/-- Dataflow nodes of the constructor: the raw inputs each pulumi apply
waits on, and the outputs of the steps. -/
inductive PipeNode where
  | bundleIn | handlerIn | injectionsIn | policiesIn | out (s : PipeStep)
deriving DecidableEq, Repr

/-- Inputs each step waits on before its callback runs, read off the
source: calculateHash applies over [bundle]; wrapHandler over
[handler, bundle, injections]; createRole consumes policies;
zipBundleFolder applies over [bundle]; createBucketObject consumes the
bundleHash (key interpolation) and the zip file; createFunction consumes
the wrapped handler and the role; updateFunctionCode consumes the created
function and the bucket object. -/
def stepInputs : PipeStep → List PipeNode
  | .hash => [.bundleIn]
  | .wrap => [.handlerIn, .bundleIn, .injectionsIn]
  | .role => [.policiesIn]
  | .zip => [.bundleIn]
  | .bucketObject => [.out .hash, .out .zip]
  | .createFn => [.out .wrap, .out .role]
  | .updateCode => [.out .createFn, .out .bucketObject]

/-- Steps whose outputs a step directly waits on. -/
def directDeps (s : PipeStep) : List PipeStep :=
  (stepInputs s).filterMap (fun n =>
    match n with
    | .out t => some t
    | _ => none)

/-- Steps reachable through at most n dataflow edges. -/
def depsWithin : Nat → PipeStep → List PipeStep
  | 0, _ => []
  | n + 1, s => (directDeps s).foldr (fun t acc => t :: (depsWithin n t ++ acc)) []

/-- Whether step a transitively waits on the output of step b. Seven steps
exist, so depth 7 exhausts the dataflow graph. -/
def waitsOn (a b : PipeStep) : Bool :=
  (depsWithin 7 a).contains b

/-- Whether a step list is free of repeats. -/
def nodupSteps : List PipeStep → Bool
  | [] => true
  | x :: xs => !xs.contains x && nodupSteps xs

/-- Schedule: the order in which the step callbacks complete. It is valid
when it runs each pipeline step once and never runs a step before a step
it waits on. -/
def validSchedule (l : List PipeStep) : Bool :=
  ([PipeStep.hash, .wrap, .role, .zip, .bucketObject, .createFn, .updateCode]).all
      (fun s => l.contains s) &&
    nodupSteps l &&
    (List.range l.length).all (fun i =>
      (List.range i).all (fun j =>
        match l[i]?, l[j]? with
        | some a, some b => !waitsOn b a
        | _, _ => true))

/-- Relative path of the module wrapHandler writes into the bundle when
injections is non-empty (handler at the bundle root). -/
def wrapperRelPath : RelPath := ["server-index.mjs"]

/-- Effect of running one step callback against the bundle directory while
recording what calculateHash digests: wrapHandler appends the generated
wrapper module to the directory when injections is non-empty, calculateHash
digests the directory as it stands at that moment, every other step leaves
the directory alone. -/
def runStep (injections : List Bytes) (wrapperBytes : Bytes)
    (st : Bundle × Option Bytes) : PipeStep → Bundle × Option Bytes
  | .hash => (st.1, some (calculateHashInput st.1))
  | .wrap =>
      if injections = [] then st
      else (st.1 ++ [(wrapperRelPath, .regular wrapperBytes)], st.2)
  | _ => st

/-- Run a whole schedule from an initial bundle. -/
def runSchedule (injections : List Bytes) (wrapperBytes : Bytes)
    (b₀ : Bundle) (l : List PipeStep) : Bundle × Option Bytes :=
  l.foldl (runStep injections wrapperBytes) (b₀, none)

/-- Concrete one-file bundle used to exercise the race. -/
def raceBundle : Bundle := [(["index.mjs"], .regular [97])]

/-- Schedule in which the calculateHash callback runs before the
wrapHandler write completes: legal, since calculateHash and
zipBundleFolder wait only on the raw bundle input. -/
def hashFirstSchedule : List PipeStep :=
  [.hash, .zip, .role, .wrap, .createFn, .bucketObject, .updateCode]

/-- C2: with a non-empty injections list, nothing orders calculateHash or
zipBundleFolder after the wrapHandler write — neither waits on the wrap
output — so the valid schedule that hashes first digests the pre-wrap
bundle, which differs from the post-wrap digest input the claim requires. -/
theorem calculateHash_races_wrapHandler :
    waitsOn .hash .wrap = false ∧
    waitsOn .zip .wrap = false ∧
    waitsOn .bucketObject .wrap = false ∧
    validSchedule hashFirstSchedule = true ∧
    (runSchedule [[1]] [2] raceBundle hashFirstSchedule).2 =
      some (calculateHashInput raceBundle) ∧
    calculateHashInput raceBundle ≠
      calculateHashInput (raceBundle ++ [(wrapperRelPath, .regular [2])]) := by
  refine ⟨rfl, rfl, rfl, by decide, rfl, by decide⟩

/-- Key of the bucket object holding the archive, from createBucketObject:
the interpolation name-code-hash.zip. -/
def bucketObjectKey (name bundleHash : String) : String :=
  name ++ "-code-" ++ bundleHash ++ ".zip"

/-- Lookup in the content-addressed store, keyed by object key. -/
def storeLookup (store : List (String × Bytes)) (key : String) : Option Bytes :=
  match store with
  | [] => none
  | (k, v) :: rest => if k = key then some v else storeLookup rest key

/-- Modelled from the spec: the declarative engine behind the bucket object
(the Artifact Publisher) is not under src — publish computes the
deterministic key, checks whether an object already exists at that key and
skips the upload when it does; the Bool records whether an upload was
performed. -/
def publish (store : List (String × Bytes)) (key : String) (content : Bytes) :
    List (String × Bytes) × Bool :=
  match storeLookup store key with
  | some _ => (store, false)
  | none => ((key, content) :: store, true)

theorem publish_preserves_key (store : List (String × Bytes)) (key : String)
    (content : Bytes) :
    ∃ c, storeLookup (publish store key content).1 key = some c := by
  unfold publish
  cases h : storeLookup store key with
  | none => exact ⟨content, by simp [storeLookup]⟩
  | some c => exact ⟨c, h⟩

theorem publish_found (store : List (String × Bytes)) (key : String)
    (content d : Bytes) (hd : storeLookup store key = some d) :
    publish store key content = (store, false) := by
  unfold publish
  rw [hd]

theorem bucketObjectKey_inj_right (n h h' : String)
    (he : bucketObjectKey n h = bucketObjectKey n h') : h = h' := by
  unfold bucketObjectKey at he
  have hd := congrArg String.data he
  simp only [String.data_append] at hd
  have h₂ := List.append_cancel_left (List.append_cancel_right hd)
  cases h; cases h'
  exact congrArg String.mk h₂

/-- C3: the storage key is the total function name-code-hash.zip of the
resource name and the content hash; distinct hashes give distinct keys for
the same name, and publishing at the same (name, hash) twice uploads at
most once — the second call finds the object already present. -/
theorem bucketObjectKey_total_publish_once (n h h' : String)
    (store : List (String × Bytes)) (c c' : Bytes) (hne : h ≠ h') :
    bucketObjectKey n h = n ++ "-code-" ++ h ++ ".zip" ∧
    bucketObjectKey n h ≠ bucketObjectKey n h' ∧
    (publish (publish store (bucketObjectKey n h) c).1
        (bucketObjectKey n h) c').2 = false := by
  refine ⟨rfl, fun he => hne (bucketObjectKey_inj_right n h h' he), ?_⟩
  obtain ⟨d, hd⟩ := publish_preserves_key store (bucketObjectKey n h) c
  rw [publish_found _ _ c' d hd]

/-- C3 witness: concrete name fn, hashes aa and bb, empty store. -/
theorem bucketObjectKey_total_publish_once_witness :
    ("aa" : String) ≠ "bb" ∧
    (bucketObjectKey "fn" "aa" = "fn" ++ "-code-" ++ "aa" ++ ".zip" ∧
      bucketObjectKey "fn" "aa" ≠ bucketObjectKey "fn" "bb" ∧
      (publish (publish [] (bucketObjectKey "fn" "aa") [1]).1
          (bucketObjectKey "fn" "aa") [1]).2 = false) :=
  ⟨by decide, bucketObjectKey_total_publish_once "fn" "aa" "bb" [] [1] [1] (by decide)⟩

/-- Resolution of the bundle hash in the constructor: the nullish
coalescing bundleHashRaw ?? calculateHash(bundle). The second component is
the hash used downstream; the Bool records whether calculateHash was
invoked, which the coalescing operator does only when bundleHashRaw is
absent. -/
def resolveBundleHash (bundleHashRaw : Option String)
    (calculate : Unit → String) : Bool × String :=
  match bundleHashRaw with
  | some h => (false, h)
  | none => (true, calculate ())

/-- C10: when the caller supplies bundleHash, calculateHash is never
invoked — whatever digesting the bundle would return — and the storage key
embeds the supplied hash verbatim, so the key need not correspond to the
content of the archive. -/
theorem bundleHash_supplied_skips_calculateHash (name h : String)
    (calculate : Unit → String) :
    resolveBundleHash (some h) calculate = (false, h) ∧
    bucketObjectKey name (resolveBundleHash (some h) calculate).2 =
      name ++ "-code-" ++ h ++ ".zip" :=
  ⟨rfl, rfl⟩

/-- Split a character list at every occurrence of the separator; the
resulting pieces never contain the separator and the list of pieces is
never empty. -/
def splitChar (sep : Char) : List Char → List (List Char)
  | [] => [[]]
  | c :: cs =>
      let rest := splitChar sep cs
      if c = sep then [] :: rest
      else
        match rest with
        | [] => [[c]]
        | r :: rs => (c :: r) :: rs

/-- Split a string at the separator character. -/
def strSplit (sep : Char) (s : String) : List String :=
  (splitChar sep s.data).map String.mk

/-- Join strings with a separator. -/
def joinSep (sep : String) : List String → String
  | [] => ""
  | [x] => x
  | x :: xs => x ++ sep ++ joinSep sep xs

/-- Last element of a list of strings, or the empty string. -/
def lastOrEmpty : List String → String
  | [] => ""
  | [x] => x
  | _ :: xs => lastOrEmpty xs

/-- Whether the string begins with a dot. -/
def startsWithDot (s : String) : Bool :=
  match s.data with
  | '.' :: _ => true
  | _ => false

/-- Whether the string is empty. -/
def strEmpty (s : String) : Bool :=
  match s.data with
  | [] => true
  | _ => false

/-- Fields of the result of path.posix.parse that wrapHandler destructures:
dir, name and ext. -/
structure ParsedPath where
  dir : String
  name : String
  ext : String
deriving DecidableEq, Repr

/-- Model of path.posix.parse: dir is everything before the last slash,
base the rest; ext starts at the last dot of the base unless that dot is
its leading character, and name is the base without the ext. -/
def posixParse (p : String) : ParsedPath :=
  let comps := strSplit '/' p
  let base := lastOrEmpty comps
  let dir := joinSep "/" comps.dropLast
  let bparts := strSplit '.' base
  if bparts.length ≤ 1 then ⟨dir, base, ""⟩
  else if startsWithDot base && bparts.length == 2 then ⟨dir, base, ""⟩
  else ⟨dir, joinSep "." bparts.dropLast, "." ++ lastOrEmpty bparts⟩

/-- Model of path.join and path.posix.join on already clean segments: the
non-empty segments joined with slashes. -/
def pathJoin (parts : List String) : String :=
  joinSep "/" (parts.filter (fun q => !strEmpty q))

/-- Removal of one leading dot, as ext.replace of the wrapper does. -/
def stripDot (e : String) : String :=
  match e.data with
  | '.' :: rest => String.mk rest
  | _ => e

/-- Arguments wrapHandler consumes once the pulumi inputs resolve. -/
structure HandlerSpec where
  handler : String
  bundle : String
  injections : List String
  streaming : Bool
deriving DecidableEq, Repr

/-- File written by wrapHandler: its path and its lines (the source joins
the lines with newlines before fs.promises.writeFile). -/
structure WrittenFile where
  path : String
  lines : List String
deriving DecidableEq, Repr

/-- Fixed name of the generated wrapper module, from the source. -/
def newHandlerName : String := "server-index"

/-- Fixed exported symbol of the generated wrapper module, from the
source. -/
def newHandlerFunction : String := "handler"

/-- First line of the generated module: the buffered shape opens a plain
async function, the streaming shape opens an awslambda.streamifyResponse
adapter around the same body. -/
def wrapHeader (streaming : Bool) : String :=
  if streaming then
    "export const " ++ newHandlerFunction ++
      " = awslambda.streamifyResponse(async (event, context) => \x7b"
  else
    "export const " ++ newHandlerFunction ++ " = async (event, context) => \x7b"

/-- Line lazily loading the original handler module and binding its
exported symbol to rawHandler. -/
def wrapImportLine (s : HandlerSpec) : String :=
  "  const \x7b " ++ stripDot (posixParse s.handler).ext ++
    ": rawHandler\x7d = await import(\"./" ++ (posixParse s.handler).name ++
    ".mjs\");"

/-- Line forwarding the original invocation arguments and result. -/
def wrapReturnLine : String := "  return rawHandler(event, context);"

/-- Closing line of the generated module. -/
def wrapCloser (streaming : Bool) : String :=
  if streaming then "\x7d);" else "\x7d;"

/-- Module wrapHandler writes when injections is non-empty: placed beside
the original handler inside the bundle, its lines are the header, the
injection snippets in declared order, the lazy load of the original
module, the forwarding return and the closer. -/
def wrapFile (s : HandlerSpec) : WrittenFile where
  path := pathJoin [s.bundle, (posixParse s.handler).dir,
    newHandlerName ++ ".mjs"]
  lines := wrapHeader s.streaming :: s.injections ++
    [wrapImportLine s, wrapReturnLine, wrapCloser s.streaming]

/-- Model of wrapHandler: with an empty injections list the original
handler reference passes through and nothing is written; otherwise the
wrapper module is written beside the original handler and the new entry
reference is returned. -/
def wrapHandler (s : HandlerSpec) : String × Option WrittenFile :=
  if s.injections = [] then (s.handler, none)
  else
    ( pathJoin [(posixParse s.handler).dir,
        newHandlerName ++ "." ++ newHandlerFunction],
      some (wrapFile s) )

/-- C4: with empty injections wrapHandler returns the original entry and
writes no file; with N injections it writes a module that opens with the
shape selected by the streaming flag, then runs the N injection snippets
in declared order (lines 1..N), then lazily loads the original handler
module binding its exported symbol, then forwards the original arguments
and the result unchanged. -/
theorem wrapHandler_wraps (s : HandlerSpec) :
    (s.injections = [] → wrapHandler s = (s.handler, none)) ∧
    (s.injections ≠ [] → ∃ f, (wrapHandler s).2 = some f ∧
      f.lines.take 1 = [wrapHeader s.streaming] ∧
      (f.lines.drop 1).take s.injections.length = s.injections ∧
      (f.lines.drop 1).drop s.injections.length =
        [wrapImportLine s, wrapReturnLine, wrapCloser s.streaming]) := by
  constructor
  · intro h
    simp [wrapHandler, h]
  · intro h
    refine ⟨wrapFile s, by simp [wrapHandler, h], rfl, ?_, ?_⟩
    · exact List.take_left s.injections _
    · exact List.drop_left s.injections _

/-- C4 witness: a concrete spec with one injection in the buffered shape. -/
theorem wrapHandler_wraps_witness :
    (["console.log(0);"] : List String) ≠ [] ∧
    (∃ f, (wrapHandler ⟨"src/index.handler", "b", ["console.log(0);"], false⟩).2 =
        some f ∧
      f.lines.take 1 = [wrapHeader false] ∧
      (f.lines.drop 1).take 1 = ["console.log(0);"] ∧
      (f.lines.drop 1).drop 1 =
        [wrapImportLine ⟨"src/index.handler", "b", ["console.log(0);"], false⟩,
          wrapReturnLine, wrapCloser false]) :=
  ⟨by decide,
    (wrapHandler_wraps ⟨"src/index.handler", "b", ["console.log(0);"], false⟩).2
      (by decide)⟩

/-- C9: with non-empty injections the generated module uses the fixed
identifiers server-index and handler, lands beside the original handler
inside the bundle, and the returned entry reference is determined by the
directory of the handler alone: two specs whose handlers share a directory
yield the same entry, whatever their module names, exported symbols,
injection contents or streaming flags. -/
theorem wrapHandler_entry_deterministic (s t : HandlerSpec)
    (hs : s.injections ≠ []) (ht : t.injections ≠ [])
    (hdir : (posixParse s.handler).dir = (posixParse t.handler).dir) :
    newHandlerName = "server-index" ∧
    newHandlerFunction = "handler" ∧
    (wrapHandler s).1 =
      pathJoin [(posixParse s.handler).dir, "server-index.handler"] ∧
    (wrapHandler s).1 = (wrapHandler t).1 ∧
    (∃ f, (wrapHandler s).2 = some f ∧
      f.path = pathJoin [s.bundle, (posixParse s.handler).dir,
        "server-index.mjs"]) := by
  have hname : newHandlerName ++ "." ++ newHandlerFunction =
      "server-index.handler" := by decide
  have hmjs : newHandlerName ++ ".mjs" = "server-index.mjs" := by decide
  refine ⟨rfl, rfl, ?_, ?_, ?_⟩
  · simp [wrapHandler, hs, hname]
  · simp [wrapHandler, hs, ht, hdir]
  · exact ⟨wrapFile s, by simp [wrapHandler, hs], by simp [wrapFile, hmjs]⟩

/-- C9 witness: two specs differing in module name, exported symbol,
injections and streaming flag but sharing the handler directory. -/
theorem wrapHandler_entry_deterministic_witness :
    (["a();"] : List String) ≠ [] ∧ (["b();", "c();"] : List String) ≠ [] ∧
    (posixParse "src/index.handler").dir = (posixParse "src/other.main").dir ∧
    (newHandlerName = "server-index" ∧
      newHandlerFunction = "handler" ∧
      (wrapHandler ⟨"src/index.handler", "b", ["a();"], false⟩).1 =
        pathJoin [(posixParse "src/index.handler").dir, "server-index.handler"] ∧
      (wrapHandler ⟨"src/index.handler", "b", ["a();"], false⟩).1 =
        (wrapHandler ⟨"src/other.main", "c", ["b();", "c();"], true⟩).1 ∧
      (∃ f, (wrapHandler ⟨"src/index.handler", "b", ["a();"], false⟩).2 =
          some f ∧
        f.path = pathJoin ["b", (posixParse "src/index.handler").dir,
          "server-index.mjs"])) :=
  ⟨by decide, by decide, by decide,
    wrapHandler_entry_deterministic
      ⟨"src/index.handler", "b", ["a();"], false⟩
      ⟨"src/other.main", "c", ["b();", "c();"], true⟩
      (by decide) (by decide) (by decide)⟩

/-- Inline placeholder code from createFunction: a program that does
nothing, present only so the engine sees non-null code at creation. -/
def placeholderCode : String := "exports.handler = () => \x7b\x7d"

/-- Code reference of the compute function resource: inline source or a
bucket object location. -/
inductive CodeRef where
  | inlineCode (src : String)
  | s3 (bucket key : String)
deriving DecidableEq, Repr

/-- Compute function resource restricted to the fields the claims touch.
The code reference is an Option so that the non-null invariant is a
statement rather than a typing accident. -/
structure FunctionResource where
  name : String
  codeRef : Option CodeRef
deriving DecidableEq, Repr

/-- createFunction from the source: the resource is created with the fixed
placeholder inline code. -/
def createFunction (name : String) : FunctionResource :=
  { name := name, codeRef := some (.inlineCode placeholderCode) }

/-- Events the resource sees after creation. -/
inductive LifecycleEvent where
  | metadataUpdate
  | codeUpdate (bucket key : String)
deriving DecidableEq, Repr

/-- Modelled from the spec: the engine driving the resource after creation
is not under src — a declarative metadata update excludes the code
reference from its diff and leaves it untouched, and the out-of-band code
update overwrites it with the artifact location. -/
def applyEvent (r : FunctionResource) : LifecycleEvent → FunctionResource
  | .metadataUpdate => r
  | .codeUpdate b k => { r with codeRef := some (.s3 b k) }

/-- Resource after a sequence of lifecycle events. -/
def applyEvents (r : FunctionResource) (es : List LifecycleEvent) :
    FunctionResource :=
  es.foldl applyEvent r

theorem applyEvent_codeRef_nonnull (r : FunctionResource) (e : LifecycleEvent)
    (h : r.codeRef ≠ none) : (applyEvent r e).codeRef ≠ none := by
  cases e with
  | metadataUpdate => exact h
  | codeUpdate b k => simp [applyEvent]

/-- C7: the resource is created with the fixed minimal placeholder, and
through every sequence of metadata updates and code updates the code
reference stays non-null. -/
theorem functionResource_code_nonnull (name : String)
    (es : List LifecycleEvent) :
    (createFunction name).codeRef = some (.inlineCode placeholderCode) ∧
    (applyEvents (createFunction name) es).codeRef ≠ none := by
  refine ⟨rfl, ?_⟩
  have hgen : ∀ (l : List LifecycleEvent) (r : FunctionResource),
      r.codeRef ≠ none → (applyEvents r l).codeRef ≠ none := by
    intro l
    induction l with
    | nil => exact fun r h => h
    | cons e es ih => exact fun r h => ih _ (applyEvent_codeRef_nonnull r e h)
  exact hgen es _ (by simp [createFunction])

/-- Phases of a CodeUpdateJob. -/
inductive JobPhase where
  | pending
  | awaitingActive
  | applying
  | verifying
  | done
  | failedRetryable
  | failedFatal
deriving DecidableEq, Repr

/-- State of the Code Update Controller for one job: its phase and the
target resource. -/
structure CtrlState where
  phase : JobPhase
  resource : FunctionResource
deriving DecidableEq, Repr

/-- Modelled from the spec: the FunctionCodeUpdater component it names is
not under src — state machine of the Code Update Controller run against a
fresh resource. Awaiting polls the initializing resource (retrying, or
failing fatally when attempts are exhausted); applying retries on conflict
and on success points the code reference at the published artifact;
verifying polls until the provider reports the update applied, timing out
retryably; done is reached only from a verified state. -/
inductive CtrlStep (bucket key : String) : CtrlState → CtrlState → Prop where
  | start (r) : CtrlStep bucket key ⟨.pending, r⟩ ⟨.awaitingActive, r⟩
  | awaitRetry (r) :
      CtrlStep bucket key ⟨.awaitingActive, r⟩ ⟨.awaitingActive, r⟩
  | awaitFail (r) : CtrlStep bucket key ⟨.awaitingActive, r⟩ ⟨.failedFatal, r⟩
  | beginApply (r) : CtrlStep bucket key ⟨.awaitingActive, r⟩ ⟨.applying, r⟩
  | applyConflict (r) : CtrlStep bucket key ⟨.applying, r⟩ ⟨.applying, r⟩
  | applied (r) : CtrlStep bucket key ⟨.applying, r⟩
      ⟨.verifying, { r with codeRef := some (.s3 bucket key) }⟩
  | verifyPoll (r) : CtrlStep bucket key ⟨.verifying, r⟩ ⟨.verifying, r⟩
  | verifyTimeout (r) :
      CtrlStep bucket key ⟨.verifying, r⟩ ⟨.failedRetryable, r⟩
  | finish (r) : CtrlStep bucket key ⟨.verifying, r⟩ ⟨.done, r⟩

/-- Invariant of the controller: from verification on, the code reference
is the published artifact. -/
def ctrlInv (bucket key : String) (s : CtrlState) : Prop :=
  (s.phase = .verifying ∨ s.phase = .done) →
    s.resource.codeRef = some (.s3 bucket key)

theorem ctrlStep_inv {bucket key : String} {s s' : CtrlState}
    (h : ctrlInv bucket key s) (hs : CtrlStep bucket key s s') :
    ctrlInv bucket key s' := by
  cases hs with
  | start r => intro hc; rcases hc with h1 | h1 <;> cases h1
  | awaitRetry r => intro hc; rcases hc with h1 | h1 <;> cases h1
  | awaitFail r => intro hc; rcases hc with h1 | h1 <;> cases h1
  | beginApply r => intro hc; rcases hc with h1 | h1 <;> cases h1
  | applyConflict r => intro hc; rcases hc with h1 | h1 <;> cases h1
  | applied r => intro hc; rfl
  | verifyPoll r => exact h
  | verifyTimeout r => intro hc; rcases hc with h1 | h1 <;> cases h1
  | finish r => intro hc; exact h (Or.inl rfl)

theorem ctrl_reach_inv {bucket key : String} {s₀ s : CtrlState}
    (hinv : ctrlInv bucket key s₀)
    (h : Relation.ReflTransGen (CtrlStep bucket key) s₀ s) :
    ctrlInv bucket key s := by
  induction h with
  | refl => exact hinv
  | tail hsteps hstep ih => exact ctrlStep_inv ih hstep

/-- C6: a resource created with the placeholder on which a code update job
runs to done has the published artifact location as its code reference,
never the placeholder. -/
theorem codeUpdater_done_points_at_artifact (bucket key fname : String)
    (s : CtrlState)
    (h : Relation.ReflTransGen (CtrlStep bucket key)
      ⟨.pending, createFunction fname⟩ s)
    (hd : s.phase = .done) :
    s.resource.codeRef = some (.s3 bucket key) ∧
    s.resource.codeRef ≠ some (.inlineCode placeholderCode) := by
  have hinv : ctrlInv bucket key s :=
    ctrl_reach_inv (fun hc => by rcases hc with h1 | h1 <;> cases h1) h
  have hcr := hinv (Or.inr hd)
  refine ⟨hcr, ?_⟩
  rw [hcr]
  simp

/-- C6 witness: the explicit run pending, awaitingActive, applying,
verifying, done against a fresh resource named fn. -/
theorem codeUpdater_done_points_at_artifact_witness :
    ((⟨JobPhase.done, { name := "fn", codeRef := some (.s3 "bkt" "key") }⟩ :
        CtrlState).phase = JobPhase.done) ∧
    (({ name := "fn", codeRef := some (.s3 "bkt" "key") } :
        FunctionResource).codeRef = some (.s3 "bkt" "key") ∧
      ({ name := "fn", codeRef := some (.s3 "bkt" "key") } :
        FunctionResource).codeRef ≠ some (.inlineCode placeholderCode)) :=
  ⟨rfl,
    codeUpdater_done_points_at_artifact "bkt" "key" "fn"
      ⟨JobPhase.done, { name := "fn", codeRef := some (.s3 "bkt" "key") }⟩
      (Relation.ReflTransGen.tail
        (Relation.ReflTransGen.tail
          (Relation.ReflTransGen.tail
            (Relation.ReflTransGen.tail Relation.ReflTransGen.refl
              (CtrlStep.start (createFunction "fn")))
            (CtrlStep.beginApply (createFunction "fn")))
          (CtrlStep.applied (createFunction "fn")))
        (CtrlStep.finish
          { name := "fn", codeRef := some (.s3 "bkt" "key") }))
      rfl⟩

/-- Phases during which the job holds the named lock of its function
name: from the start of the run until done or failure. -/
def inFlight : JobPhase → Bool
  | .awaitingActive => true
  | .applying => true
  | .verifying => true
  | _ => false

/-- Transitions a running job takes on its own, read off the controller
state machine; every source phase of a local transition is in flight. -/
def localStep : JobPhase → JobPhase → Bool
  | .awaitingActive, .awaitingActive => true
  | .awaitingActive, .applying => true
  | .awaitingActive, .failedFatal => true
  | .applying, .applying => true
  | .applying, .verifying => true
  | .verifying, .verifying => true
  | .verifying, .done => true
  | .verifying, .failedRetryable => true
  | _, _ => false

/-- Modelled from the spec: the named mutual-exclusion lock keyed by
function name has no source under src — a pending job may start (acquire
the lock of its name and begin awaiting) only while no other job with the
same function name is in flight, and a started job advances by the local
transitions of the controller. -/
inductive LockStep {ι : Type} [DecidableEq ι] (names : ι → String) :
    (ι → JobPhase) → (ι → JobPhase) → Prop where
  | acquire (s : ι → JobPhase) (i : ι) (hp : s i = .pending)
      (hlock : ∀ k, k ≠ i → names k = names i → inFlight (s k) = false) :
      LockStep names s (Function.update s i .awaitingActive)
  | advance (s : ι → JobPhase) (i : ι) (p : JobPhase)
      (hl : localStep (s i) p = true) :
      LockStep names s (Function.update s i p)

/-- Mutual exclusion: of two distinct jobs with the same function name, at
most one is in flight. -/
def lockMutex {ι : Type} (names : ι → String) (s : ι → JobPhase) : Prop :=
  ∀ a b, a ≠ b → names a = names b →
    inFlight (s a) = false ∨ inFlight (s b) = false

theorem localStep_inFlight (p q : JobPhase) (hl : localStep p q = true) :
    inFlight q = true → inFlight p = true := by
  cases p <;> cases q <;> simp_all [localStep, inFlight]

theorem lockStep_mutex {ι : Type} [DecidableEq ι] {names : ι → String}
    {s s' : ι → JobPhase} (hm : lockMutex names s)
    (hs : LockStep names s s') : lockMutex names s' := by
  cases hs with
  | acquire i hp hlock =>
      intro a b hab hn
      by_cases ha : a = i
      · subst ha
        right
        rw [Function.update_noteq (Ne.symm hab)]
        exact hlock b (Ne.symm hab) hn.symm
      · by_cases hb : b = i
        · subst hb
          left
          rw [Function.update_noteq ha]
          exact hlock a ha hn
        · rw [Function.update_noteq ha, Function.update_noteq hb]
          exact hm a b hab hn
  | advance i p hl =>
      intro a b hab hn
      rcases hm a b hab hn with h | h
      · left
        by_cases ha : a = i
        · subst ha
          rw [Function.update_same]
          cases hq : inFlight p with
          | false => rfl
          | true =>
              have hsrc := localStep_inFlight _ _ hl hq
              rw [hsrc] at h
              exact absurd h (by decide)
        · rw [Function.update_noteq ha]; exact h
      · right
        by_cases hb : b = i
        · subst hb
          rw [Function.update_same]
          cases hq : inFlight p with
          | false => rfl
          | true =>
              have hsrc := localStep_inFlight _ _ hl hq
              rw [hsrc] at h
              exact absurd h (by decide)
        · rw [Function.update_noteq hb]; exact h

theorem lock_reach_mutex {ι : Type} [DecidableEq ι] {names : ι → String}
    {s₀ s : ι → JobPhase} (hm : lockMutex names s₀)
    (h : Relation.ReflTransGen (LockStep names) s₀ s) :
    lockMutex names s := by
  induction h with
  | refl => exact hm
  | tail hsteps hstep ih => exact lockStep_mutex ih hstep

/-- C8: two distinct jobs with the same function name, in any state the
lock-guarded system reaches from all-pending, are never both in the
Applying phase: while one applies, the other is not applying. -/
theorem codeUpdateJob_applying_exclusive {ι : Type} [DecidableEq ι]
    (names : ι → String) (s : ι → JobPhase)
    (h : Relation.ReflTransGen (LockStep names) (fun _ => .pending) s)
    (i k : ι) (hik : i ≠ k) (hn : names i = names k)
    (hi : s i = .applying) : s k ≠ .applying := by
  have hm : lockMutex names s :=
    lock_reach_mutex (by intro a b hab hn2; left; rfl) h
  intro hk
  rcases hm i k hik hn with h1 | h1
  · rw [hi] at h1; cases h1
  · rw [hk] at h1; cases h1

/-- Reachable two-job state in which job 0 holds the lock and applies
while job 1 is still pending. -/
def lockWitnessState : Fin 2 → JobPhase :=
  Function.update
    (Function.update (fun _ => JobPhase.pending) 0 JobPhase.awaitingActive)
    0 JobPhase.applying

/-- C8 witness: two jobs for the same function name fn; job 0 acquires and
applies, so job 1 is not applying. -/
theorem codeUpdateJob_applying_exclusive_witness :
    ((0 : Fin 2) ≠ 1) ∧ lockWitnessState 0 = JobPhase.applying ∧
    lockWitnessState 1 ≠ JobPhase.applying :=
  ⟨by decide, by decide,
    codeUpdateJob_applying_exclusive (fun _ => "fn") lockWitnessState
      (Relation.ReflTransGen.tail
        (Relation.ReflTransGen.tail Relation.ReflTransGen.refl
          (LockStep.acquire (fun _ => JobPhase.pending) 0 rfl
            (fun k _ _ => rfl)))
        (LockStep.advance
          (Function.update (fun _ => JobPhase.pending) 0
            JobPhase.awaitingActive)
          0 JobPhase.applying (by decide)))
      0 1 (by decide) rfl (by decide)⟩

end SstFunction
